import Mathlib

/-!
Verification development for the wdom web-synchronized node layer
(`wdom/web_node.py`, `wdom/webif.py`).

The Python classes are shallowly embedded: each method becomes a pure Lean
function over explicit state; Python dictionaries become association lists;
`asyncio.Future` objects become an explicit store of future states addressed
by a future id.  Collaborator modules that are not part of the two
synchronization files (the `wdom.server` transport module, the element/node
tree library, and the event-listener bookkeeping) are modelled from the
specification; every such definition carries a doc comment saying so.
-/

namespace Wdom

/-! ### Association-list primitives (model of Python `dict`) -/

/-- Lookup of a key in an association list (first match), as Python dict
lookup on a dict with unique keys. -/
def lookupK {κ α : Type} [DecidableEq κ] : List (κ × α) → κ → Option α
  | [], _ => none
  | kv :: rest, k => if kv.1 = k then some kv.2 else lookupK rest k

/-- Store a key/value pair: overwrite every binding of the key when present,
append otherwise.  On unique-key lists this is Python dict assignment. -/
def setK {κ α : Type} [DecidableEq κ] (l : List (κ × α)) (k : κ) (v : α) :
    List (κ × α) :=
  if (lookupK l k).isSome then
    l.map (fun kv => if kv.1 = k then (k, v) else kv)
  else l ++ [(k, v)]

/-- Remove every binding of a key; on unique-key lists this is Python
`dict.pop`. -/
def eraseK {κ α : Type} [DecidableEq κ] (l : List (κ × α)) (k : κ) :
    List (κ × α) :=
  l.filter (fun kv => kv.1 ≠ k)

theorem lookupK_setK_self {κ α : Type} [DecidableEq κ]
    (l : List (κ × α)) (k : κ) (v : α) : lookupK (setK l k v) k = some v := by
  unfold setK
  by_cases h : (lookupK l k).isSome
  · simp only [h, if_true]
    induction l with
    | nil => simp [lookupK] at h
    | cons kv rest ih =>
      by_cases hk : kv.1 = k
      · simp [lookupK, hk]
      · simp only [lookupK, hk, if_false] at h
        simpa [lookupK, hk] using ih h
  · simp only [h, if_false]
    induction l with
    | nil => simp [lookupK]
    | cons kv rest ih =>
      by_cases hk : kv.1 = k
      · simp [lookupK, hk, Option.isSome] at h
      · simp only [lookupK, hk, if_false] at h ⊢
        simpa [List.cons_append, lookupK, hk] using ih h

theorem lookupK_map_replace {κ α : Type} [DecidableEq κ]
    (l : List (κ × α)) (k k' : κ) (v : α) (h : k' ≠ k) :
    lookupK (l.map (fun kv => if kv.1 = k then (k, v) else kv)) k'
      = lookupK l k' := by
  induction l with
  | nil => simp [lookupK]
  | cons kv rest ih =>
    by_cases hk : kv.1 = k
    · have hne : k ≠ k' := Ne.symm h
      have hne2 : kv.1 ≠ k' := by rw [hk]; exact hne
      simp [lookupK, hk, hne, hne2, ih]
    · by_cases hk' : kv.1 = k'
      · simp [lookupK, hk, hk', h]
      · simp [lookupK, hk, hk', ih]

theorem lookupK_append_one {κ α : Type} [DecidableEq κ]
    (l : List (κ × α)) (k k' : κ) (v : α) (h : k' ≠ k) :
    lookupK (l ++ [(k, v)]) k' = lookupK l k' := by
  induction l with
  | nil => simp [lookupK, Ne.symm h]
  | cons kv rest ih =>
    by_cases hk' : kv.1 = k'
    · simp [lookupK, hk']
    · simp [lookupK, hk', ih]

theorem lookupK_setK_ne {κ α : Type} [DecidableEq κ]
    (l : List (κ × α)) (k k' : κ) (v : α) (h : k' ≠ k) :
    lookupK (setK l k v) k' = lookupK l k' := by
  unfold setK
  by_cases hs : (lookupK l k).isSome
  · simp only [hs, if_true]
    exact lookupK_map_replace l k k' v h
  · simp only [hs, if_false]
    exact lookupK_append_one l k k' v h

theorem lookupK_eraseK_self {κ α : Type} [DecidableEq κ]
    (l : List (κ × α)) (k : κ) : lookupK (eraseK l k) k = none := by
  induction l with
  | nil => simp [eraseK, lookupK]
  | cons kv rest ih =>
    by_cases hk : kv.1 = k
    · simpa [eraseK, List.filter, hk] using ih
    · simpa [eraseK, List.filter, lookupK, hk] using ih

theorem lookupK_eraseK_ne {κ α : Type} [DecidableEq κ]
    (l : List (κ × α)) (k k' : κ) (h : k' ≠ k) :
    lookupK (eraseK l k) k' = lookupK l k' := by
  induction l with
  | nil => simp [eraseK, lookupK]
  | cons kv rest ih =>
    by_cases hk : kv.1 = k
    · have hne2 : k ≠ k' := Ne.symm h
      simpa [eraseK, List.filter, lookupK, hk, hne2] using ih
    · by_cases hk' : kv.1 = k'
      · simp [eraseK, List.filter, lookupK, hk, hk', h]
      · simpa [eraseK, List.filter, lookupK, hk, hk'] using ih

/-! ### Python values and truthiness -/

/-- A Python value as it appears in protocol messages. -/
inductive PyVal : Type where
  | pynone : PyVal
  | pybool (b : Bool) : PyVal
  | pyint (n : Int) : PyVal
  | pystr (s : String) : PyVal
deriving DecidableEq, Repr

/-- Python truthiness of a `PyVal`, as used by `if response:` in
`on_response` / `_handle_response`. -/
def truthy : PyVal → Bool
  | .pynone => false
  | .pybool b => b
  | .pyint n => n != 0
  | .pystr s => s != ""

/-! ### Connection state (claim C1)

`wdom/server` is not part of the two synchronization source files. -/

/-- The owning document of a node, carrying its live transport connections
(identified by numbers).  Modelled from the spec: a document "may have zero,
one, or many simultaneous connections"; in this repository the document is a
process-wide singleton. -/
structure Doc : Type where
  connections : List Nat
deriving DecidableEq, Repr

/-- Modelled from the spec: `wdom.server.is_connected` (module `wdom/server`
is not among the source files).  The spec describes it as the transport
predicate telling whether the (singleton) document currently has at least one
live connection. -/
def serverIsConnected (doc : Doc) : Bool :=
  !doc.connections.isEmpty

/-- The fields of a `WdomElement` relevant to command emission: its tag, its
`rimo_id` string and whether `self.ownerDocument` is non-null (the owning
document being the singleton `Doc`). -/
structure WElem : Type where
  tag : String
  rimoId : String
  owner : Bool
deriving DecidableEq, Repr

/-- `WdomElement.connected`: `bool(server.is_connected() and
self.ownerDocument)` (web_node.py line 98). -/
def connected (doc : Doc) (p : WElem) : Bool :=
  serverIsConnected doc && p.owner

/-- `WebIF.connected`: `bool(self.ownerDocument and
self.ownerDocument.connections)` (webif.py line 28); here the owner document
is carried as an explicit `Option Doc`. -/
def WebIF.connected (ownerDocument : Option Doc) : Bool :=
  match ownerDocument with
  | none => false
  | some d => !d.connections.isEmpty

/-! ### Outbound commands -/

/-- One outbound protocol message, as assembled by `ws_send`:
`dict(method=..., params=...)` extended with `target='node'`,
`id=self.rimo_id`, `tag=self.tag`. -/
structure Command : Type where
  method : String
  params : List PyVal
  target : String
  id : String
  tag : String
deriving DecidableEq, Repr

/-- `WdomElement.ws_send`: pushes the message only when
`self.ownerDocument is not None` (web_node.py lines 133-144); returns the
list of pushed messages. -/
def ws_send (p : WElem) (method : String) (params : List PyVal) :
    List Command :=
  if p.owner then [⟨method, params, "node", p.rimoId, p.tag⟩] else []

/-- `WdomElement.js_exec`: emits the command only when `self.connected`
(web_node.py lines 108-116). -/
def js_exec (doc : Doc) (p : WElem) (method : String) (params : List PyVal) :
    List Command :=
  if connected doc p then ws_send p method params else []

/-! ### Pending-request tracker (claims C2, C3, C4) -/

/-- The state of an `asyncio.Future`: `done v` after `set_result(v)`,
`cancelled` after `cancel()` (in which case `cancelled()` and `done()` are
both true in Python). -/
inductive FutState : Type where
  | pending : FutState
  | done (v : PyVal) : FutState
  | cancelled : FutState
deriving DecidableEq, Repr

/-- The per-node request-tracking state of a `WdomElement`:
`reqid` is `self.__reqid`; `tasks` is `self.__tasks`, mapping a request id to
a future; futures are given identity by numbering them in `futs`, with
`nextFid` the next unused future id (a fresh `Future()` in Python is a fresh
object). -/
structure JSState : Type where
  reqid : Nat
  tasks : List (Nat × Nat)
  futs : List (Nat × FutState)
  nextFid : Nat
deriving DecidableEq, Repr

/-- The constructor state: `self.__reqid = 0; self.__tasks = {}`
(web_node.py lines 82-83). -/
def initState : JSState := ⟨0, [], [], 0⟩

/-- `WdomElement.js_query` (web_node.py lines 118-131).  When connected it
emits the query command carrying the current `__reqid`, stores a fresh
pending future under that id and increments the counter; otherwise it
returns a fresh future already resolved with `None` and emits nothing.
Returns (new state, id of the returned future, emitted commands). -/
def js_query (doc : Doc) (p : WElem) (st : JSState) (query : String) :
    JSState × Nat × List Command :=
  if connected doc p then
    let cmds := js_exec doc p query [.pyint (st.reqid : Int)]
    let fid := st.nextFid
    (⟨st.reqid + 1, setK st.tasks st.reqid fid,
      setK st.futs fid .pending, fid + 1⟩, fid, cmds)
  else
    let fid := st.nextFid
    (⟨st.reqid, st.tasks, setK st.futs fid (.done .pynone), fid + 1⟩, fid, [])

/-- `WdomElement.on_response` (web_node.py lines 100-106), identical in logic
to `WebIF._handle_response` (webif.py lines 45-50): when the message's data
payload is truthy, pop the request id from `__tasks`; if a task was popped
and it is neither cancelled nor done, set its result to the data. -/
def on_response (st : JSState) (reqid : Nat) (data : PyVal) : JSState :=
  if truthy data then
    match lookupK st.tasks reqid with
    | none => st
    | some fid =>
      match lookupK st.futs fid with
      | some .pending =>
        ⟨st.reqid, eraseK st.tasks reqid, setK st.futs fid (.done data),
         st.nextFid⟩
      | _ => ⟨st.reqid, eraseK st.tasks reqid, st.futs, st.nextFid⟩
  else st

/-- A sequence of `js_query` calls on one node, one per element of the list
of transport states at call time; returns the final state together with the
request ids that were allocated (the connected calls). -/
def runQueries (p : WElem) : JSState → List Doc → JSState × List Nat
  | st, [] => (st, [])
  | st, d :: ds =>
    let r := js_query d p st "q"
    let rest := runQueries p r.1 ds
    (rest.1, (if connected d p then [st.reqid] else []) ++ rest.2)

/-- Well-formedness of the tracker state: every stored future id is below
`nextFid` and every pending-table key is below the request counter.  Holds
for `initState` and is preserved by every operation. -/
def goodSt (st : JSState) : Prop :=
  (∀ kv ∈ st.futs, kv.1 < st.nextFid) ∧ (∀ kv ∈ st.tasks, kv.1 < st.reqid)

theorem lookupK_none_of_keys_lt {α : Type}
    (l : List (Nat × α)) (n : Nat) (h : ∀ kv ∈ l, kv.1 < n) :
    lookupK l n = none := by
  induction l with
  | nil => rfl
  | cons kv rest ih =>
    have h1 : kv.1 < n := h kv (List.mem_cons_self kv rest)
    have h2 : kv.1 ≠ n := Nat.ne_of_lt h1
    simp only [lookupK, h2, if_false]
    exact ih (fun x hx => h x (List.mem_cons_of_mem kv hx))

theorem runQueries_reqid_le (p : WElem) (ds : List Doc) (st : JSState) :
    st.reqid ≤ (runQueries p st ds).1.reqid := by
  induction ds generalizing st with
  | nil => simp [runQueries]
  | cons d ds ih =>
    simp only [runQueries]
    by_cases h : connected d p
    · calc st.reqid ≤ st.reqid + 1 := Nat.le_succ _
        _ ≤ _ := by simpa [js_query, h] using ih (js_query d p st "q").1
    · simpa [js_query, h] using ih (js_query d p st "q").1

theorem runQueries_ids_ge (p : WElem) (ds : List Doc) (st : JSState) :
    ∀ i ∈ (runQueries p st ds).2, st.reqid ≤ i := by
  induction ds generalizing st with
  | nil => simp [runQueries]
  | cons d ds ih =>
    intro i hi
    simp only [runQueries, List.mem_append] at hi
    by_cases h : connected d p
    · rcases hi with hi | hi
      · simp only [h, if_true, List.mem_singleton] at hi
        exact hi ▸ Nat.le_refl _
      · have := ih _ i hi
        simp only [js_query, h, if_true] at this
        exact Nat.le_of_succ_le this
    · rcases hi with hi | hi
      · simp [h] at hi
      · have := ih _ i hi
        simpa [js_query, h] using this

theorem mem_setK {κ α : Type} [DecidableEq κ]
    (l : List (κ × α)) (k : κ) (v : α) :
    ∀ kv ∈ setK l k v, kv.1 = k ∨ kv ∈ l := by
  intro kv hkv
  unfold setK at hkv
  by_cases hs : (lookupK l k).isSome
  · simp only [hs, if_true, List.mem_map] at hkv
    obtain ⟨kv0, hkv0, heq⟩ := hkv
    by_cases hk : kv0.1 = k
    · left; rw [← heq]; simp [hk]
    · right; rw [← heq]; simpa [hk] using hkv0
  · simp only [hs, if_false] at hkv
    rcases List.mem_append.mp hkv with h | h
    · right; exact h
    · left
      simp only [List.mem_singleton] at h
      rw [h]

theorem mem_eraseK {κ α : Type} [DecidableEq κ]
    (l : List (κ × α)) (k : κ) : ∀ kv ∈ eraseK l k, kv ∈ l := by
  intro kv hkv
  exact List.mem_of_mem_filter hkv

theorem goodSt_initState : goodSt initState := by
  constructor <;> intro kv hkv <;> simp [initState] at hkv

theorem lookupK_mem {κ α : Type} [DecidableEq κ]
    (l : List (κ × α)) (k : κ) (v : α) (h : lookupK l k = some v) :
    (k, v) ∈ l := by
  induction l with
  | nil => simp [lookupK] at h
  | cons kv rest ih =>
    by_cases hk : kv.1 = k
    · cases kv with
      | mk a b =>
        simp only at hk
        subst hk
        have hbv : b = v := by simpa [lookupK] using h
        subst hbv
        exact List.mem_cons_self _ _
    · simp only [lookupK, hk, if_false] at h
      exact List.mem_cons_of_mem _ (ih h)

theorem goodSt_js_query (doc : Doc) (p : WElem) (st : JSState) (q : String)
    (h : goodSt st) : goodSt (js_query doc p st q).1 := by
  obtain ⟨hf, ht⟩ := h
  by_cases hc : connected doc p = true
  · refine ⟨?_, ?_⟩ <;> intro kv hkv <;> simp [js_query, hc] at hkv ⊢
    · rcases mem_setK st.futs st.nextFid .pending kv hkv with he | hm
      · omega
      · have := hf kv hm; omega
    · rcases mem_setK st.tasks st.reqid st.nextFid kv hkv with he | hm
      · omega
      · have := ht kv hm; omega
  · refine ⟨?_, ?_⟩ <;> intro kv hkv <;> simp [js_query, hc] at hkv ⊢
    · rcases mem_setK st.futs st.nextFid (.done .pynone) kv hkv with he | hm
      · omega
      · have := hf kv hm; omega
    · exact ht kv hkv

theorem goodSt_on_response (st : JSState) (reqid : Nat) (data : PyVal)
    (h : goodSt st) : goodSt (on_response st reqid data) := by
  obtain ⟨hf, ht⟩ := h
  have herase : ∀ kv ∈ eraseK st.tasks reqid, kv.1 < st.reqid :=
    fun kv hkv => ht kv (mem_eraseK st.tasks reqid kv hkv)
  unfold on_response
  split
  · split
    · exact ⟨hf, ht⟩
    · next fid hl =>
      split
      · next hl2 =>
        refine ⟨?_, herase⟩
        intro kv hkv
        show kv.1 < st.nextFid
        rcases mem_setK st.futs fid (.done data) kv hkv with he | hm
        · have hmem := lookupK_mem st.futs fid FutState.pending hl2
          have := hf _ hmem
          omega
        · exact hf kv hm
      · exact ⟨hf, herase⟩
  · exact ⟨hf, ht⟩

theorem runQueries_pairwise (p : WElem) (ds : List Doc) (st : JSState) :
    (runQueries p st ds).2.Pairwise (· < ·) := by
  induction ds generalizing st with
  | nil => simp [runQueries]
  | cons d ds ih =>
    simp only [runQueries]
    by_cases h : connected d p
    · simp only [h, if_true, List.singleton_append]
      refine List.Pairwise.cons ?_ (ih _)
      intro i hi
      have := runQueries_ids_ge p ds _ i hi
      simp only [js_query, h, if_true] at this
      exact Nat.lt_of_succ_le this
    · simpa [h] using ih _

/-! ### Event listeners and event synthesis (claims C7, C8) -/

/-- The `_event_listeners` bookkeeping of a node: map from event type to the
list of registered listeners (listeners identified by numbers).  Modelled
from the spec: the listener registry itself lives in the event module, which
is not among the source files; the spec says an event type is "registered"
while it has at least one listener and that the entry disappears when the
last listener is removed. -/
abbrev LisMap : Type := List (String × List Nat)

/-- Modelled from the spec: the superclass `addEventListener` appends the
listener to the list for its event type, creating the entry if needed. -/
def addListenerLocal (m : LisMap) (ev : String) (lid : Nat) : LisMap :=
  match lookupK m ev with
  | none => m ++ [(ev, [lid])]
  | some ls => setK m ev (ls ++ [lid])

/-- Modelled from the spec: the superclass `removeEventListener` removes the
listener from the list for its event type and drops the entry when the list
becomes empty. -/
def removeListenerLocal (m : LisMap) (ev : String) (lid : Nat) : LisMap :=
  match lookupK m ev with
  | none => m
  | some ls =>
    let ls2 := ls.erase lid
    if ls2 = [] then eraseK m ev else setK m ev ls2

/-- `WdomElement.addEventListener` (web_node.py lines 368-372): registers the
listener locally, then emits the `addEventListener` command whenever this
node is connected. -/
def addEventListener (doc : Doc) (p : WElem) (m : LisMap) (ev : String)
    (lid : Nat) : LisMap × List Command :=
  (addListenerLocal m ev lid,
   if connected doc p then js_exec doc p "addEventListener" [.pystr ev]
   else [])

/-- `WdomElement.removeEventListener` (web_node.py lines 374-382): removes
the listener locally; when connected, `_remove_event_listener_web` emits the
`removeEventListener` command only if the event type no longer appears in
`_event_listeners`. -/
def removeEventListener (doc : Doc) (p : WElem) (m : LisMap) (ev : String)
    (lid : Nat) : LisMap × List Command :=
  let m2 := removeListenerLocal m ev lid
  (m2,
   if connected doc p then
     if lookupK m2 ev = none then
       js_exec doc p "removeEventListener" [.pystr ev]
     else []
   else [])

/-- The event object constructed by `create_event` from a message, carrying
the event type and the `currentTarget` / `target` identifiers.  Modelled
from the spec: the event class lives in the event module, not among the
source files; the spec requires the object to carry at minimum `type`,
`currentTarget` identifier and `target` identifier. -/
structure WEvent : Type where
  type : String
  currentTargetId : String
  targetId : String
deriving DecidableEq, Repr

/-- Modelled from the spec: `create_event` builds the event object from the
message fields `type`, `currentTarget.id`, `target.id`. -/
def create_event (type : String) (currentTargetId targetId : String) :
    WEvent :=
  ⟨type, currentTargetId, targetId⟩

/-- Modelled from the spec: the local dispatch routine `_dispatch_event`
delivers the event to every listener registered for its type; the result
lists the (listener, delivered event) pairs in registration order. -/
def dispatchEvent (m : LisMap) (e : WEvent) : List (Nat × WEvent) :=
  match lookupK m e.type with
  | none => []
  | some ls => ls.map (fun lid => (lid, e))

/-- `WebIF._handle_event` (webif.py lines 40-43), routing an inbound browser
event message for this node: build the event object from the message payload
and dispatch it through the local dispatch routine. -/
def handle_event (m : LisMap) (type currentTargetId targetId : String) :
    List (Nat × WEvent) :=
  dispatchEvent m (create_event type currentTargetId targetId)

/-- `WdomElement.click` (web_node.py lines 384-395): when connected, emit a
`click` command to the browser; otherwise synthesize the message
`(type='click', currentTarget=(id=rimo_id), target=(id=rimo_id))`, build an
event from it and dispatch locally.  Returns (emitted commands, local
listener deliveries). -/
def click (doc : Doc) (p : WElem) (m : LisMap) :
    List Command × List (Nat × WEvent) :=
  if connected doc p then (js_exec doc p "click" [], [])
  else ([], dispatchEvent m (create_event "click" p.rimoId p.rimoId))

/-! ### Identity registry (claim C10) -/

/-- A Python dictionary key as used by `_elements_with_rimo_id`: the
annotated key type is `Union[int, str]`, and in Python the integer `1` and
the string `"1"` are distinct keys. -/
inductive PyKey : Type where
  | int (n : Nat) : PyKey
  | str (s : String) : PyKey
deriving DecidableEq, Repr

/-- The class-level registry `_elements_with_rimo_id`, mapping the stored
key to the object id of the registered node.  (Weakness of the references
plays no role in the registered/overwrite/lookup behaviour considered
here.) -/
abbrev Registry : Type := List (PyKey × Nat)

/-- The `rimo_id` computation of `WdomElement.__init__` (web_node.py lines
84-87): `str(id(self))` when no id is supplied, otherwise `str(rimo_id)`;
`toString` on a natural number is the decimal string, matching `str` on a
Python int. -/
def initRimoId (objId : Nat) : Option PyKey → String
  | none => toString objId
  | some (.int n) => toString n
  | some (.str s) => s

/-- The registration step `self._elements_with_rimo_id[self.rimo_id] = self`
(web_node.py line 89): keyed by the string `self.rimo_id`, overwriting any
existing entry. -/
def registerElement (reg : Registry) (rimoId : String) (objId : Nat) :
    Registry :=
  setK reg (.str rimoId) objId

/-- Registry lookup by an arbitrary Python key. -/
def resolveElement (reg : Registry) (k : PyKey) : Option Nat :=
  lookupK reg k

/-- The identity-relevant part of the constructor: compute the `rimo_id`
string and register the node; returns (stored id, new registry). -/
def constructElement (reg : Registry) (objId : Nat) (rimoId : Option PyKey) :
    String × Registry :=
  let rid := initRimoId objId rimoId
  (rid, registerElement reg rid objId)

/-- All keys of a registry are strings (the constructor only ever registers
string keys). -/
def strKeysOnly (reg : Registry) : Prop :=
  ∀ kv ∈ reg, ∃ s, kv.1 = PyKey.str s

theorem strKeysOnly_register (reg : Registry) (rid : String) (objId : Nat)
    (h : strKeysOnly reg) : strKeysOnly (registerElement reg rid objId) := by
  intro kv hkv
  rcases mem_setK reg (.str rid) objId kv hkv with he | hm
  · exact ⟨rid, he⟩
  · exact h kv hm

theorem resolveElement_int_none (reg : Registry) (n : Nat)
    (h : strKeysOnly reg) : resolveElement reg (.int n) = none := by
  induction reg with
  | nil => rfl
  | cons kv rest ih =>
    obtain ⟨s, hs⟩ := h kv (List.mem_cons_self kv rest)
    have hne : kv.1 ≠ PyKey.int n := by rw [hs]; intro hc; cases hc
    simp only [resolveElement, lookupK, hne, if_false]
    exact ih (fun x hx => h x (List.mem_cons_of_mem kv hx))

/-! ### The node tree and its HTML serialization (claims C5, C6, C9) -/

/-- A node of the local tree: either a `WdomElement` (tag, `rimo_id` string,
ordinary attributes, children) or a `CharacterData` text node. -/
inductive WNode : Type where
  | elem (tag : String) (rimoId : String) (attrs : List (String × String))
      (children : List WNode) : WNode
  | text (s : String) : WNode

mutual
/-- Structural equality of nodes, standing in for Python `==` in
`child in self.childNodes` and `list.remove`. -/
def WNode.beq : WNode → WNode → Bool
  | .text s, .text t => s == t
  | .elem t1 r1 a1 c1, .elem t2 r2 a2 c2 =>
    t1 == t2 && r1 == r2 && a1 == a2 && WNode.beqList c1 c2
  | _, _ => false
def WNode.beqList : List WNode → List WNode → Bool
  | [], [] => true
  | x :: xs, y :: ys => WNode.beq x y && WNode.beqList xs ys
  | _, _ => false
end

/-- Membership of a node in a child list, as Python `child in
self.childNodes`. -/
def containsNode : List WNode → WNode → Bool
  | [], _ => false
  | x :: xs, c => WNode.beq x c || containsNode xs c

/-- Modelled from the spec: the node library's `_remove_child` removes the
first matching child and raises `ValueError` when the argument "is not a
child of this node" (the docstring of `WdomElement.removeChild`,
web_node.py line 308); `none` is the raising outcome. -/
def removeChildLocal : List WNode → WNode → Option (List WNode)
  | [], _ => none
  | x :: xs, c =>
    if WNode.beq x c then some xs
    else (removeChildLocal xs c).map (fun r => x :: r)

/-- Index of a child within the child list (`self.index(child)`); only used
on actual children. -/
def indexOfNode : List WNode → WNode → Nat
  | [], _ => 0
  | x :: xs, c => if WNode.beq x c then 0 else indexOfNode xs c + 1

/-- Escaping of text content.  Modelled from the spec: the tree library's
HTML serializer escapes text content in a normal context. -/
def escChar (c : Char) : List Char :=
  if c = '&' then "&amp;".data
  else if c = '<' then "&lt;".data
  else if c = '>' then "&gt;".data
  else [c]

def escapeChars : List Char → List Char
  | [] => []
  | c :: rest => escChar c ++ escapeChars rest

/-- Tags whose text content is serialized raw.  Modelled from the spec: "a
text node needs to know its parent to escape or not its content" (comment in
`_get_child_html`, web_node.py lines 253-254). -/
def rawTextTag (tag : String) : Bool :=
  tag == "script" || tag == "style"

/-- Rendered characters of a text node under an (optional) parent tag. -/
def textChars (parentTag : Option String) (s : String) : List Char :=
  match parentTag with
  | some t => if rawTextTag t then s.data else escapeChars s.data
  | none => escapeChars s.data

/-- Characters of one ordinary attribute as serialized in a start tag. -/
def attrChars (kv : String × String) : List Char :=
  ' ' :: kv.1.data ++ '=' :: '"' :: kv.2.data ++ ['"']

def attrsChars : List (String × String) → List Char
  | [] => []
  | kv :: rest => attrChars kv ++ attrsChars rest

/-- The character literal `rimo_id="` (shared between the serializer and the
`remove_rimo_id` regex). -/
def rimoLit : List Char :=
  'r' :: 'i' :: 'm' :: 'o' :: '_' :: 'i' :: 'd' :: '=' :: ['"']

/-- Characters of the `rimo_id` attribute prepended by
`WdomElement._get_attrs_by_string` (web_node.py lines 157-162). -/
def rimoAttrChars (rimoId : String) : List Char :=
  ' ' :: rimoLit ++ rimoId.data ++ ['"']

mutual
/-- HTML serialization of a node under an (optional) parent tag.  Modelled
from the spec: the element library serializes `<tag attrs>children</tag>`,
with `_get_attrs_by_string` (in the source) putting `rimo_id="..."` first
among the attributes. -/
def htmlChars (parentTag : Option String) : WNode → List Char
  | .text s => textChars parentTag s
  | .elem tag rimoId attrs children =>
    '<' :: tag.data ++ rimoAttrChars rimoId ++ attrsChars attrs ++
      '>' :: htmlListChars tag children ++ '<' :: '/' :: tag.data ++ ['>']

/-- HTML serialization of a child list under a parent tag. -/
def htmlListChars (tag : String) : List WNode → List Char
  | [] => []
  | c :: cs => htmlChars (some tag) c ++ htmlListChars tag cs
end

/-- `WdomElement._get_child_html` (web_node.py lines 251-260): a
`CharacterData` child is temporarily appended so that its serialization sees
this node as parent; any other child is serialized by its own `html`. -/
def get_child_html (p : WElem) (c : WNode) : List Char :=
  match c with
  | .text s => textChars (some p.tag) s
  | .elem tag rimoId attrs children =>
    htmlChars none (.elem tag rimoId attrs children)

/-- `WdomElement.appendChild` (web_node.py lines 262-275): when connected,
`_append_child_web` emits one `insertAdjacentHTML('beforeend', html)`
command; the child is then appended to the local child list unconditionally.
Returns (new child list, emitted commands). -/
def appendChild (doc : Doc) (p : WElem) (children : List WNode) (c : WNode) :
    List WNode × List Command :=
  (children ++ [c],
   if connected doc p then
     js_exec doc p "insertAdjacentHTML"
       [.pystr "beforeend", .pystr ⟨get_child_html p c⟩]
   else [])

/-- `WdomElement._remove_child_web` (web_node.py lines 297-303): only if the
argument is currently a child, emit `removeChildById` (for a `WdomElement`
child) or `removeChildByIndex` (for a text child). -/
def _remove_child_web (doc : Doc) (p : WElem) (children : List WNode)
    (c : WNode) : List Command :=
  if containsNode children c then
    match c with
    | .elem _ rid _ _ => js_exec doc p "removeChildById" [.pystr rid]
    | .text _ =>
      js_exec doc p "removeChildByIndex"
        [.pyint (indexOfNode children c : Int)]
  else []

/-- Result of `removeChild`: the (possibly unchanged) child list, whether a
`ValueError` propagated to the caller, and the emitted commands. -/
structure RemoveResult : Type where
  children : List WNode
  raised : Bool
  cmds : List Command

/-- `WdomElement.removeChild` (web_node.py lines 305-312): the web phase
runs first when connected, then the local removal, which raises when the
argument is not a child. -/
def removeChild (doc : Doc) (p : WElem) (children : List WNode) (c : WNode) :
    RemoveResult :=
  let cmds := if connected doc p then _remove_child_web doc p children c
              else []
  match removeChildLocal children c with
  | none => ⟨children, true, cmds⟩
  | some ch2 => ⟨ch2, false, cmds⟩

/-! ### The `remove_rimo_id` scanner (claim C9)

`_remove_id_re = re.compile(r' rimo_id="\d+"')` and
`remove_rimo_id(html) = _remove_id_re.sub('', html)` (web_node.py lines
23-30): every occurrence of a space, the literal `rimo_id="`, one or more
digits and a closing quote is deleted, scanning left to right. -/

/-- Consume an exact literal from the front of the input. -/
def dropLit : List Char → List Char → Option (List Char)
  | [], rest => some rest
  | _ :: _, [] => none
  | l :: ls, c :: rest => if c = l then dropLit ls rest else none

/-- Split the longest run of leading digits (the greedy `\d+`). -/
def spanDigits : List Char → List Char × List Char
  | [] => ([], [])
  | c :: rest =>
    if c.isDigit then
      let r := spanDigits rest
      (c :: r.1, r.2)
    else ([], c :: rest)

/-- Try to match `rimo_id="\d+"` at the head of the input (the part of the
regex after the leading space); on success return the rest of the input. -/
def tryPat (l : List Char) : Option (List Char) :=
  match dropLit rimoLit l with
  | none => none
  | some r =>
    let sd := spanDigits r
    if sd.1.isEmpty then none
    else
      match sd.2 with
      | '"' :: r2 => some r2
      | _ => none

theorem dropLit_length (ls : List Char) :
    ∀ l r, dropLit ls l = some r → r.length ≤ l.length := by
  induction ls with
  | nil =>
    intro l r h
    simp only [dropLit, Option.some.injEq] at h
    rw [h]
  | cons lc ls ih =>
    intro l r h
    cases l with
    | nil => simp [dropLit] at h
    | cons c rest =>
      by_cases hc : c = lc
      · simp only [dropLit, hc, if_true] at h
        have := ih rest r h
        simp only [List.length_cons]
        omega
      · simp [dropLit, hc] at h

theorem spanDigits_snd_length (l : List Char) :
    (spanDigits l).2.length ≤ l.length := by
  induction l with
  | nil => simp [spanDigits]
  | cons c rest ih =>
    by_cases hc : c.isDigit
    · simp only [spanDigits, hc, if_true]
      simp only [List.length_cons]
      omega
    · simp [spanDigits, hc]

theorem tryPat_length (l r : List Char) (h : tryPat l = some r) :
    r.length ≤ l.length := by
  unfold tryPat at h
  cases hd : dropLit rimoLit l with
  | none => rw [hd] at h; simp at h
  | some r1 =>
    rw [hd] at h
    simp only at h
    by_cases he : (spanDigits r1).1.isEmpty
    · simp [he] at h
    · simp only [he, if_false] at h
      cases hs : (spanDigits r1).2 with
      | nil => rw [hs] at h; simp at h
      | cons c r2 =>
        rw [hs] at h
        by_cases hq : c = '"'
        · subst hq
          simp at h
          subst h
          have h1 := dropLit_length rimoLit l r1 hd
          have h2 := spanDigits_snd_length r1
          rw [hs] at h2
          simp only [List.length_cons] at h2
          omega
        · cases c
          simp_all

/-- Fuel-driven scanner body; with fuel at least the input length the fuel
never runs out (`tryPat` never lengthens the input). -/
def stripGo : Nat → List Char → List Char
  | 0, l => l
  | _ + 1, [] => []
  | fuel + 1, c :: rest =>
    if c = ' ' then
      match tryPat rest with
      | some r2 => stripGo fuel r2
      | none => c :: stripGo fuel rest
    else c :: stripGo fuel rest

/-- The scanner underlying `remove_rimo_id`, on character lists. -/
def stripChars (l : List Char) : List Char :=
  stripGo l.length l

/-- `remove_rimo_id` (web_node.py lines 28-30). -/
def remove_rimo_id (s : String) : String :=
  ⟨stripChars s.data⟩

theorem stripGo_eq (f1 : Nat) :
    ∀ f2 l, l.length ≤ f1 → l.length ≤ f2 → stripGo f1 l = stripGo f2 l := by
  induction f1 with
  | zero =>
    intro f2 l h1 _
    have : l = [] := List.eq_nil_of_length_eq_zero (Nat.le_zero.mp h1)
    subst this
    cases f2 <;> rfl
  | succ g1 ih =>
    intro f2 l h1 h2
    cases l with
    | nil => cases f2 <;> rfl
    | cons c rest =>
      simp only [List.length_cons] at h1 h2
      cases f2 with
      | zero => omega
      | succ g2 =>
        simp only [stripGo]
        by_cases hc : c = ' '
        · simp only [hc, if_true]
          cases ht : tryPat rest with
          | some r2 =>
            have hlen := tryPat_length rest r2 ht
            exact ih g2 r2 (by omega) (by omega)
          | none =>
            rw [ih g2 rest (by omega) (by omega)]
        · simp only [hc, if_false]
          rw [ih g2 rest (by omega) (by omega)]

theorem stripChars_nil : stripChars [] = [] := rfl

theorem stripChars_cons_ne (c : Char) (rest : List Char) (h : c ≠ ' ') :
    stripChars (c :: rest) = c :: stripChars rest := by
  simp only [stripChars, List.length_cons, stripGo, h, if_false]

theorem stripChars_space_none (rest : List Char) (h : tryPat rest = none) :
    stripChars (' ' :: rest) = ' ' :: stripChars rest := by
  simp only [stripChars, List.length_cons, stripGo, if_true, h]

theorem stripChars_space_some (rest r2 : List Char)
    (h : tryPat rest = some r2) :
    stripChars (' ' :: rest) = stripChars r2 := by
  have hlen := tryPat_length rest r2 h
  simp only [stripChars, List.length_cons, stripGo, if_true, h]
  exact stripGo_eq rest.length r2.length r2 hlen (Nat.le_refl _)

/-! ### Serialization without the identity attribute, and safety conditions
under which `remove_rimo_id` recovers it -/

mutual
/-- Serialization of a node with the `rimo_id` attribute omitted (what the
superclass serializer would produce). -/
def htmlNoIdChars (parentTag : Option String) : WNode → List Char
  | .text s => textChars parentTag s
  | .elem tag _ attrs children =>
    '<' :: tag.data ++ attrsChars attrs ++
      '>' :: htmlNoIdListChars tag children ++ '<' :: '/' :: tag.data ++ ['>']

/-- Serialization of a child list with `rimo_id` attributes omitted. -/
def htmlNoIdListChars (tag : String) : List WNode → List Char
  | [] => []
  | c :: cs => htmlNoIdChars (some tag) c ++ htmlNoIdListChars tag cs
end

/-- A character that cannot continue a partial match of the pattern: it is
neither a literal character of `rimo_id="` nor a digit. -/
def contFree (c : Char) : Bool :=
  decide (c ∉ rimoLit) && !c.isDigit

/-- The head of the remaining input (if any) cannot continue a partial
match. -/
def contFreeHead : List Char → Bool
  | [] => true
  | c :: _ => contFree c

/-- The characters that may follow an attribute inside a start tag: another
attribute (space) or the closing `>`. -/
def afterOk : List Char → Bool
  | [] => true
  | c :: _ => c = ' ' || c = '>'

def noQuote (l : List Char) : Bool := l.all (fun c => c != '"')

def allDigits (l : List Char) : Bool := l.all Char.isDigit

/-- Safety of one ordinary attribute: the name contains no quote, space or
underscore (in particular it is not `rimo_id`, which the source forbids
setting), and the value contains no quote. -/
def attrOk (kv : String × String) : Bool :=
  kv.1.data.all (fun c => c != '"' && c != ' ' && c != '_') &&
    noQuote kv.2.data

def isText : WNode → Bool
  | .text _ => true
  | .elem _ _ _ _ => false

/-- No two adjacent text children (adjacent text renders with no separator,
so a pattern occurrence could span the boundary). -/
def noAdjacentText : List WNode → Bool
  | [] => true
  | _ :: [] => true
  | c1 :: c2 :: rest =>
    !(isText c1 && isText c2) && noAdjacentText (c2 :: rest)

mutual
/-- Conditions under which stripping the serialized HTML of a node yields
exactly the id-free serialization: tags quote-free, identities nonempty
digit strings, attributes `attrOk`, rendered text quote-free, and no two
adjacent text children. -/
def safeNode (parentTag : Option String) : WNode → Bool
  | .text s => noQuote (textChars parentTag s)
  | .elem tag rid attrs children =>
    noQuote tag.data && allDigits rid.data && !rid.data.isEmpty &&
      attrs.all attrOk && noAdjacentText children && safeList tag children

def safeList (tag : String) : List WNode → Bool
  | [] => true
  | c :: cs => safeNode (some tag) c && safeList tag cs
end

theorem noQuote_not_mem (l : List Char) (h : noQuote l = true) : '"' ∉ l := by
  intro hm
  have := List.all_eq_true.mp h '"' hm
  simp at this

theorem contFree_not_mem (c : Char) (h : contFree c = true) : c ∉ rimoLit := by
  simp only [contFree, Bool.and_eq_true, decide_eq_true_eq] at h
  exact h.1

theorem contFree_not_digit (c : Char) (h : contFree c = true) :
    c.isDigit = false := by
  simp only [contFree, Bool.and_eq_true, Bool.not_eq_true'] at h
  exact h.2

/-- A region with no space passes through the scanner unchanged (no match
can start inside it). -/
theorem strip_append_nospace (a : List Char) (rest : List Char)
    (h : ∀ c ∈ a, c ≠ ' ') :
    stripChars (a ++ rest) = a ++ stripChars rest := by
  induction a with
  | nil => rfl
  | cons c a2 ih =>
    have hc : c ≠ ' ' := h c (List.mem_cons_self c a2)
    rw [List.cons_append, stripChars_cons_ne c _ hc,
      ih (fun x hx => h x (List.mem_cons_of_mem c hx)), List.cons_append]

/-- The literal match cannot succeed over a quote-free region followed by a
continuation-free head: it either mismatches inside the region or
mismatches at the first character beyond it. -/
theorem dropLit_stop (ls : List Char) :
    ∀ xs ys, (∀ c ∈ ls, c ∈ rimoLit) → '"' ∈ ls → '"' ∉ xs →
      contFreeHead ys = true → dropLit ls (xs ++ ys) = none := by
  induction ls with
  | nil =>
    intro xs ys _ hq _ _
    simp at hq
  | cons l ls2 ih =>
    intro xs ys hsub hq hxs hys
    cases xs with
    | nil =>
      cases ys with
      | nil => rfl
      | cons c ys2 =>
        have hcf : contFree c = true := hys
        have hmem : l ∈ rimoLit := hsub l (List.mem_cons_self l ls2)
        have hne : c ≠ l := fun hc => contFree_not_mem c hcf (hc ▸ hmem)
        simp [dropLit, hne]
    | cons x xs2 =>
      have hx : x ≠ '"' := fun hc => hxs (by rw [hc]; exact List.mem_cons_self _ _)
      by_cases hxl : x = l
      · subst hxl
        have hq2 : '"' ∈ ls2 := by
          cases List.mem_cons.mp hq with
          | inl h => exact absurd h.symm hx
          | inr h => exact h
        have hxs2 : '"' ∉ xs2 := fun hc => hxs (List.mem_cons_of_mem x hc)
        have hsub2 : ∀ c ∈ ls2, c ∈ rimoLit :=
          fun c hc => hsub c (List.mem_cons_of_mem x hc)
        simp only [List.cons_append, dropLit, if_pos rfl]
        exact ih xs2 ys hsub2 hq2 hxs2 hys
      · simp [dropLit, hxl]

theorem tryPat_of_dropLit_none (l : List Char)
    (h : dropLit rimoLit l = none) : tryPat l = none := by
  simp [tryPat, h]

/-- `tryPat` fails on a quote-free region followed by a continuation-free
head. -/
theorem tryPat_noquote (xs ys : List Char) (hq : '"' ∉ xs)
    (hy : contFreeHead ys = true) : tryPat (xs ++ ys) = none :=
  tryPat_of_dropLit_none _
    (dropLit_stop rimoLit xs ys (fun _ hc => hc) (by decide) hq hy)

/-- A quote-free region followed by a continuation-free head passes through
the scanner unchanged. -/
theorem strip_append_noquote (a : List Char) (rest : List Char)
    (hq : '"' ∉ a) (hr : contFreeHead rest = true) :
    stripChars (a ++ rest) = a ++ stripChars rest := by
  induction a with
  | nil => rfl
  | cons c a2 ih =>
    have hc : c ≠ '"' := fun hcq => hq (by rw [hcq]; exact List.mem_cons_self _ _)
    have hq2 : '"' ∉ a2 := fun hm => hq (List.mem_cons_of_mem c hm)
    by_cases hsp : c = ' '
    · subst hsp
      rw [List.cons_append,
        stripChars_space_none _ (tryPat_noquote a2 rest hq2 hr), ih hq2,
        List.cons_append]
    · rw [List.cons_append, stripChars_cons_ne c _ hsp, ih hq2,
        List.cons_append]

theorem dropLit_self (ls : List Char) :
    ∀ rest, dropLit ls (ls ++ rest) = some rest := by
  induction ls with
  | nil => intro rest; rfl
  | cons l ls2 ih => intro rest; simp [dropLit, ih]

theorem spanDigits_append (ds : List Char) (c : Char) (r : List Char)
    (hd : allDigits ds = true) (hc : c.isDigit = false) :
    spanDigits (ds ++ c :: r) = (ds, c :: r) := by
  induction ds with
  | nil => simp [spanDigits, hc]
  | cons d ds2 ih =>
    have hdd : d.isDigit = true := List.all_eq_true.mp hd d (List.mem_cons_self _ _)
    have hd2 : allDigits ds2 = true :=
      List.all_eq_true.mpr (fun x hx => List.all_eq_true.mp hd x (List.mem_cons_of_mem d hx))
    simp [spanDigits, hdd, ih hd2]

theorem spanDigits_afterOk (rest : List Char) (h : afterOk rest = true) :
    spanDigits rest = ([], rest) := by
  cases rest with
  | nil => rfl
  | cons c r =>
    have : c = ' ' ∨ c = '>' := by
      simpa [afterOk] using h
    rcases this with h1 | h1 <;> subst h1 <;> rfl

/-- The serialized `rimo_id` attribute is removed by the scanner. -/
theorem strip_rimo (rid : List Char) (rest : List Char)
    (hd : allDigits rid = true) (hne : rid ≠ []) :
    stripChars ((' ' :: rimoLit ++ rid ++ ['"']) ++ rest) = stripChars rest := by
  have hpat : tryPat (rimoLit ++ (rid ++ '"' :: rest)) = some rest := by
    rw [tryPat, dropLit_self rimoLit (rid ++ '"' :: rest)]
    have hsd := spanDigits_append rid '"' rest hd (by decide)
    simp only [hsd]
    have : rid.isEmpty = false := by
      cases rid with
      | nil => exact absurd rfl hne
      | cons a b => rfl
    simp [this]
  have : (' ' :: rimoLit ++ rid ++ ['"']) ++ rest =
      ' ' :: (rimoLit ++ (rid ++ '"' :: rest)) := by
    simp [List.append_assoc]
  rw [this, stripChars_space_some _ _ hpat]

/-- Matching a literal that ends in its only quote against a quote-free
region followed by an explicit quote: the match either fails or consumes
exactly through that quote, which forces the region to be the literal minus
its quote. -/
theorem dropLit_final_quote :
    ∀ (xs ls0 rest : List Char), '"' ∉ xs → '"' ∉ ls0 →
      dropLit (ls0 ++ ['"']) (xs ++ '"' :: rest) = none ∨
      (dropLit (ls0 ++ ['"']) (xs ++ '"' :: rest) = some rest ∧ ls0 = xs) := by
  intro xs
  induction xs with
  | nil =>
    intro ls0 rest _ hl
    cases ls0 with
    | nil =>
      right
      constructor
      · simp [dropLit]
      · rfl
    | cons l ls02 =>
      left
      have hlq : l ≠ '"' := by
        intro hc
        apply hl
        rw [← hc]
        exact List.mem_cons_self _ _
      have : ¬('"' = l) := fun hc => hlq hc.symm
      simp [dropLit, this]
  | cons x xs2 ih =>
    intro ls0 rest hx hl
    have hxq : x ≠ '"' := fun hc => hx (by rw [hc]; exact List.mem_cons_self _ _)
    have hxs2 : '"' ∉ xs2 := fun hm => hx (List.mem_cons_of_mem x hm)
    cases ls0 with
    | nil =>
      left
      simp [dropLit, hxq]
    | cons l ls02 =>
      have hl02 : '"' ∉ ls02 := fun hm => hl (List.mem_cons_of_mem l hm)
      by_cases hxl : x = l
      · subst hxl
        simp only [List.cons_append, dropLit, if_pos rfl]
        rcases ih ls02 rest hxs2 hl02 with h | ⟨h, he⟩
        · left; exact h
        · right; exact ⟨h, by rw [he]⟩
      · left
        simp [dropLit, hxl]

/-- Decomposition of the pattern literal around its final quote. -/
theorem rimoLit_decomp :
    rimoLit = ('r' :: 'i' :: 'm' :: 'o' :: '_' :: 'i' :: 'd' :: ['=']) ++ ['"'] := by
  rfl

/-- `tryPat` fails at a space inside an attribute value: the value is
quote-free, and even if the literal completes using the value's closing
quote, no digits follow (an attribute is followed by a space or `>`). -/
theorem tryPat_value (xs rest : List Char) (hq : '"' ∉ xs)
    (hr : afterOk rest = true) : tryPat (xs ++ '"' :: rest) = none := by
  have hl0 : '"' ∉ ('r' :: 'i' :: 'm' :: 'o' :: '_' :: 'i' :: 'd' :: ['=']) := by decide
  rcases dropLit_final_quote xs _ rest hq hl0 with h | ⟨h, _⟩
  · rw [tryPat, rimoLit_decomp, h]
  · rw [tryPat, rimoLit_decomp, h]
    simp only [spanDigits_afterOk rest hr]
    rfl

/-- `tryPat` fails at the space before an ordinary attribute: the attribute
name is quote-free and contains no underscore, so it cannot be `rimo_id`. -/
theorem tryPat_attr_head (k w : List Char) (hq : '"' ∉ k) (hu : '_' ∉ k) :
    tryPat (k ++ '=' :: '"' :: w) = none := by
  have hq2 : '"' ∉ k ++ ['='] := by
    intro hm
    rcases List.mem_append.mp hm with h | h
    · exact hq h
    · simp at h
  have hl0 : '"' ∉ ('r' :: 'i' :: 'm' :: 'o' :: '_' :: 'i' :: 'd' :: ['=']) := by decide
  have hshape : k ++ '=' :: '"' :: w = (k ++ ['=']) ++ '"' :: w := by
    simp
  rcases dropLit_final_quote (k ++ ['=']) _ w hq2 hl0 with h | ⟨_, he⟩
  · rw [tryPat, rimoLit_decomp, hshape, h]
  · exfalso
    have he2 : k ++ ['='] = ['r', 'i', 'm', 'o', '_', 'i', 'd'] ++ ['='] := by
      rw [← he]
      decide
    have hk : k = ['r', 'i', 'm', 'o', '_', 'i', 'd'] :=
      (List.append_inj' he2 rfl).1
    rw [hk] at hu
    simp at hu

/-- An attribute value region (quote-free) followed by its closing quote
passes through the scanner unchanged. -/
theorem strip_value (w : List Char) (rest : List Char) (hq : '"' ∉ w)
    (hr : afterOk rest = true) :
    stripChars (w ++ '"' :: rest) = w ++ '"' :: stripChars rest := by
  induction w with
  | nil =>
    simp only [List.nil_append]
    rw [stripChars_cons_ne _ _ (by decide)]
  | cons c w2 ih =>
    have hq2 : '"' ∉ w2 := fun hm => hq (List.mem_cons_of_mem c hm)
    by_cases hsp : c = ' '
    · subst hsp
      rw [List.cons_append,
        stripChars_space_none _ (tryPat_value w2 rest hq2 hr), ih hq2,
        List.cons_append]
    · rw [List.cons_append, stripChars_cons_ne c _ hsp, ih hq2,
        List.cons_append]

/-- One serialized ordinary attribute passes through the scanner
unchanged. -/
theorem strip_attr (kv : String × String) (rest : List Char)
    (hok : attrOk kv = true) (hr : afterOk rest = true) :
    stripChars (attrChars kv ++ rest) = attrChars kv ++ stripChars rest := by
  have hok2 := hok
  simp only [attrOk, Bool.and_eq_true] at hok2
  obtain ⟨hk, hv⟩ := hok2
  have hkq : '"' ∉ kv.1.data := by
    intro hm
    have := List.all_eq_true.mp hk _ hm
    simp at this
  have hku : '_' ∉ kv.1.data := by
    intro hm
    have := List.all_eq_true.mp hk _ hm
    simp at this
  have hksp : ∀ c ∈ kv.1.data, c ≠ ' ' := by
    intro c hm hc
    have := List.all_eq_true.mp hk _ hm
    rw [hc] at this
    simp at this
  have hvq : '"' ∉ kv.2.data := noQuote_not_mem _ hv
  have hshape : attrChars kv ++ rest =
      ' ' :: (kv.1.data ++ '=' :: '"' :: (kv.2.data ++ '"' :: rest)) := by
    simp [attrChars]
  rw [hshape,
    stripChars_space_none _ (tryPat_attr_head kv.1.data _ hkq hku)]
  have hshape2 : kv.1.data ++ '=' :: '"' :: (kv.2.data ++ '"' :: rest) =
      (kv.1.data ++ ['=', '"']) ++ (kv.2.data ++ '"' :: rest) := by
    simp
  rw [hshape2,
    strip_append_nospace (kv.1.data ++ ['=', '"']) _ (by
      intro c hm hc
      subst hc
      rcases List.mem_append.mp hm with h | h
      · exact hksp _ h rfl
      · simp at h),
    strip_value kv.2.data rest hvq hr]
  simp [attrChars]

/-- A serialized ordinary-attribute list passes through the scanner
unchanged. -/
theorem strip_attrs (attrs : List (String × String)) (rest : List Char)
    (hall : attrs.all attrOk = true) (hr : afterOk rest = true) :
    stripChars (attrsChars attrs ++ rest) = attrsChars attrs ++ stripChars rest := by
  induction attrs with
  | nil => rfl
  | cons kv as2 ih =>
    have hok : attrOk kv = true := List.all_eq_true.mp hall kv (List.mem_cons_self _ _)
    have hall2 : as2.all attrOk = true :=
      List.all_eq_true.mpr (fun x hx => List.all_eq_true.mp hall x (List.mem_cons_of_mem kv hx))
    have hr2 : afterOk (attrsChars as2 ++ rest) = true := by
      cases as2 with
      | nil => simpa [attrsChars] using hr
      | cons kv2 as3 => simp [attrsChars, attrChars, afterOk]
    rw [attrsChars, List.append_assoc, strip_attr kv _ hok hr2, ih hall2,
      List.append_assoc]

theorem noAdjacentText_tail (c : WNode) (cs : List WNode)
    (h : noAdjacentText (c :: cs) = true) : noAdjacentText cs = true := by
  cases cs with
  | nil => rfl
  | cons c2 cs2 =>
    simp only [noAdjacentText, Bool.and_eq_true] at h
    exact h.2

/-- What must hold of the characters following a node's serialization for
the scanner to treat the node's region independently: nothing for an
element (it ends with `>`), a continuation-free head for a text node. -/
def nodeRestOk : WNode → List Char → Bool
  | .text _, rest => contFreeHead rest
  | .elem _ _ _ _, _ => true

mutual
/-- Scanning the serialization of a safe node followed by any admissible
remainder removes exactly the `rimo_id` attributes of the node and then
scans the remainder. -/
theorem strip_html (pt : Option String) (n : WNode) (rest : List Char)
    (hs : safeNode pt n = true) (hr : nodeRestOk n rest = true) :
    stripChars (htmlChars pt n ++ rest) =
      htmlNoIdChars pt n ++ stripChars rest := by
  cases n with
  | text s =>
    have hnq : '"' ∉ textChars pt s := noQuote_not_mem _ (by simpa [safeNode] using hs)
    simpa [htmlChars, htmlNoIdChars] using
      strip_append_noquote (textChars pt s) rest hnq
        (by simpa [nodeRestOk] using hr)
  | elem tag rid attrs cs =>
    simp only [safeNode, Bool.and_eq_true] at hs
    obtain ⟨⟨⟨⟨⟨h1, h2⟩, h3⟩, h4⟩, h5⟩, h6⟩ := hs
    have hq1 : '"' ∉ '<' :: tag.data := by
      intro hm
      rcases List.mem_cons.mp hm with h | h
      · exact absurd h (by decide)
      · exact noQuote_not_mem _ h1 h
    have hq2 : '"' ∉ '<' :: '/' :: tag.data := by
      intro hm
      rcases List.mem_cons.mp hm with h | h
      · exact absurd h (by decide)
      · rcases List.mem_cons.mp h with h | h
        · exact absurd h (by decide)
        · exact noQuote_not_mem _ h1 h
    have hne : rid.data ≠ [] := by
      intro hc
      rw [hc] at h3
      simp at h3
    have hbody := strip_htmlList tag cs
      (('<' :: '/' :: tag.data) ++ '>' :: rest) h6 h5
      (by simp only [List.cons_append, contFreeHead]; decide)
    have hend : stripChars ((('<' :: '/' :: tag.data) ++ '>' :: rest)) =
        ('<' :: '/' :: tag.data) ++ '>' :: stripChars rest := by
      rw [strip_append_noquote _ _ hq2
          (by simp only [contFreeHead]; decide),
        stripChars_cons_ne '>' rest (by decide)]
    have hshape : htmlChars pt (.elem tag rid attrs cs) ++ rest =
        ('<' :: tag.data) ++ ((' ' :: rimoLit ++ rid.data ++ ['"']) ++
          (attrsChars attrs ++
            ('>' :: (htmlListChars tag cs ++
              (('<' :: '/' :: tag.data) ++ '>' :: rest))))) := by
      simp [htmlChars, rimoAttrChars, List.append_assoc]
    rw [hshape,
      strip_append_noquote ('<' :: tag.data) _ hq1
        (by simp only [List.cons_append, List.append_assoc, contFreeHead]; decide),
      strip_rimo rid.data _ h2 hne,
      strip_attrs attrs _ h4 (by simp only [afterOk]; decide),
      stripChars_cons_ne '>' _ (by decide),
      hbody, hend]
    simp [htmlNoIdChars, List.append_assoc]

/-- Scanning the serialization of a safe child list (no adjacent text
children) followed by a continuation-free remainder removes exactly the
`rimo_id` attributes. -/
theorem strip_htmlList (tag : String) (cs : List WNode) (rest : List Char)
    (hs : safeList tag cs = true) (hadj : noAdjacentText cs = true)
    (hr : contFreeHead rest = true) :
    stripChars (htmlListChars tag cs ++ rest) =
      htmlNoIdListChars tag cs ++ stripChars rest := by
  cases cs with
  | nil => rfl
  | cons c cs2 =>
    simp only [safeList, Bool.and_eq_true] at hs
    obtain ⟨hc1, hcs2⟩ := hs
    have hadj2 : noAdjacentText cs2 = true := noAdjacentText_tail c cs2 hadj
    have hrest1ok : nodeRestOk c (htmlListChars tag cs2 ++ rest) = true := by
      cases c with
      | elem t r a ch => rfl
      | text s =>
        cases cs2 with
        | nil => simpa [htmlListChars] using hr
        | cons c2 cs3 =>
          cases c2 with
          | elem t2 r2 a2 ch2 =>
            simp only [nodeRestOk, htmlListChars, htmlChars,
              List.cons_append, List.append_assoc, contFreeHead]
            decide
          | text s2 =>
            exfalso
            simp [noAdjacentText, isText] at hadj
    calc stripChars (htmlListChars tag (c :: cs2) ++ rest)
        = stripChars (htmlChars (some tag) c ++ (htmlListChars tag cs2 ++ rest)) := by
          simp [htmlListChars, List.append_assoc]
      _ = htmlNoIdChars (some tag) c ++
            stripChars (htmlListChars tag cs2 ++ rest) :=
          strip_html (some tag) c _ hc1 hrest1ok
      _ = htmlNoIdChars (some tag) c ++
            (htmlNoIdListChars tag cs2 ++ stripChars rest) := by
          rw [strip_htmlList tag cs2 rest hcs2 hadj2 hr]
      _ = htmlNoIdListChars tag (c :: cs2) ++ stripChars rest := by
          simp [htmlNoIdListChars, List.append_assoc]
end

/-- The `html` property of a node (serialization with `rimo_id`), at top
level (no parent). -/
def WNode.html (n : WNode) : String := ⟨htmlChars none n⟩

/-- `WdomElement.html_noid` (web_node.py lines 359-362):
`remove_rimo_id(self.html)`. -/
def html_noid (n : WNode) : String := remove_rimo_id (WNode.html n)

/-- Serialization with the `rimo_id` attribute omitted, as a string. -/
def WNode.htmlNoId (n : WNode) : String := ⟨htmlNoIdChars none n⟩

theorem nodeRestOk_nil (n : WNode) : nodeRestOk n [] = true := by
  cases n <;> rfl

theorem get_child_html_eq (p : WElem) (c : WNode) :
    get_child_html p c = htmlChars (some p.tag) c := by
  cases c <;> rfl

theorem removeChildLocal_none (l : List WNode) (c : WNode)
    (h : containsNode l c = false) : removeChildLocal l c = none := by
  induction l with
  | nil => rfl
  | cons x xs ih =>
    simp only [containsNode, Bool.or_eq_false_iff] at h
    simp only [removeChildLocal, h.1, if_false]
    rw [ih h.2]
    rfl

theorem connected_owner (doc : Doc) (p : WElem)
    (h : connected doc p = true) : p.owner = true := by
  simp only [connected, Bool.and_eq_true] at h
  exact h.2

theorem dispatchEvent_none (m : LisMap) (e : WEvent)
    (h : lookupK m e.type = none) : dispatchEvent m e = [] := by
  unfold dispatchEvent
  rw [h]

theorem dispatchEvent_some (m : LisMap) (e : WEvent) (ls : List Nat)
    (h : lookupK m e.type = some ls) :
    dispatchEvent m e = ls.map (fun lid => (lid, e)) := by
  unfold dispatchEvent
  rw [h]

/-! ### Claim theorems -/

/-- C1: for every node, the connected predicate is true iff the node has a
non-null owning document and that owning document currently has at least one
live connection; a node with no owning document is never connected; the
predicate is a function of the connection state at the time of the call
(both `WdomElement.connected`, with the process-wide transport check, and
`WebIF.connected`, with the per-document check, quantified over every
current state). -/
theorem C1_connected_gate :
    (∀ (doc : Doc) (p : WElem),
      connected doc p = true ↔ p.owner = true ∧ doc.connections ≠ []) ∧
    (∀ (doc : Doc) (p : WElem), p.owner = false → connected doc p = false) ∧
    (∀ od : Option Doc,
      WebIF.connected od = true ↔ ∃ d, od = some d ∧ d.connections ≠ []) ∧
    (WebIF.connected none = false) := by
  refine ⟨?_, ?_, ?_, rfl⟩
  · intro doc p
    simp [connected, serverIsConnected, Bool.and_eq_true, and_comm,
      List.isEmpty_iff]
  · intro doc p h
    simp [connected, h]
  · intro od
    cases od with
    | none => simp [WebIF.connected]
    | some d => simp [WebIF.connected, List.isEmpty_iff]

/-- Witness for C1 at concrete inputs: a node with an owner and one live
connection is connected; without an owner it is not, whatever the
connection count. -/
theorem C1_connected_gate_witness :
    connected ⟨[7]⟩ ⟨"div", "1", true⟩ = true ∧
    connected ⟨[7]⟩ ⟨"div", "1", false⟩ = false ∧
    WebIF.connected (some ⟨[7]⟩) = true ∧
    WebIF.connected none = false :=
  ⟨(C1_connected_gate.1 ⟨[7]⟩ ⟨"div", "1", true⟩).mpr ⟨rfl, by decide⟩,
   C1_connected_gate.2.1 ⟨[7]⟩ ⟨"div", "1", false⟩ rfl,
   (C1_connected_gate.2.2.1 (some ⟨[7]⟩)).mpr ⟨⟨[7]⟩, rfl, by decide⟩,
   C1_connected_gate.2.2.2⟩

/-- C2 counterexample: the claim says that when the request id maps to a
handle that is already resolved, delivery is a no-op "with no state change";
but the code pops the entry first, so the table shrinks.  Also, the claim
says a pending handle is completed with the message's data payload, but a
falsy payload (here the empty string) makes the delivery a complete no-op,
leaving the handle pending and the entry in place. -/
theorem C2_counterexample :
    (lookupK (JSState.mk 1 [(0, 0)] [(0, .done (.pystr "old"))] 1).tasks 0 =
        some 0 ∧
      lookupK (JSState.mk 1 [(0, 0)] [(0, .done (.pystr "old"))] 1).futs 0 =
        some (.done (.pystr "old")) ∧
      on_response (JSState.mk 1 [(0, 0)] [(0, .done (.pystr "old"))] 1) 0
          (.pystr "x") ≠
        JSState.mk 1 [(0, 0)] [(0, .done (.pystr "old"))] 1) ∧
    (lookupK (JSState.mk 1 [(0, 0)] [(0, .pending)] 1).futs 0 =
        some .pending ∧
      on_response (JSState.mk 1 [(0, 0)] [(0, .pending)] 1) 0 (.pystr "") =
        JSState.mk 1 [(0, 0)] [(0, .pending)] 1) := by
  decide

/-- C2 (amended): delivering a response whose data payload is truthy pops
the entry for its request id (if any); the popped handle is completed with
the data only when it is still pending; an absent id, or a falsy data
payload, makes the delivery a complete no-op; no error is ever raised
(total function). -/
theorem C2_response_delivery :
    ∀ (st : JSState) (reqid : Nat) (data : PyVal),
      (truthy data = false → on_response st reqid data = st) ∧
      (truthy data = true → lookupK st.tasks reqid = none →
        on_response st reqid data = st) ∧
      (truthy data = true → ∀ fid, lookupK st.tasks reqid = some fid →
        (on_response st reqid data).tasks = eraseK st.tasks reqid ∧
        (on_response st reqid data).reqid = st.reqid ∧
        (on_response st reqid data).nextFid = st.nextFid ∧
        (lookupK st.futs fid = some FutState.pending →
          (on_response st reqid data).futs = setK st.futs fid (.done data)) ∧
        (∀ fs, lookupK st.futs fid = some fs → fs ≠ FutState.pending →
          (on_response st reqid data).futs = st.futs) ∧
        (lookupK st.futs fid = none →
          (on_response st reqid data).futs = st.futs)) := by
  intro st reqid data
  refine ⟨?_, ?_, ?_⟩
  · intro hd
    simp [on_response, hd]
  · intro hd hl
    simp [on_response, hd, hl]
  · intro hd fid hl
    refine ⟨?_, ?_, ?_, ?_, ?_, ?_⟩
    · simp only [on_response, hd, if_true, hl]
      cases hf : lookupK st.futs fid with
      | none => rfl
      | some fs => cases fs <;> rfl
    · simp only [on_response, hd, if_true, hl]
      cases hf : lookupK st.futs fid with
      | none => rfl
      | some fs => cases fs <;> rfl
    · simp only [on_response, hd, if_true, hl]
      cases hf : lookupK st.futs fid with
      | none => rfl
      | some fs => cases fs <;> rfl
    · intro hf
      simp [on_response, hd, hl, hf]
    · intro fs hf hne
      simp only [on_response, hd, if_true, hl]
      cases fs with
      | pending => exact absurd rfl hne
      | done v => simp [hf]
      | cancelled => simp [hf]
    · intro hf
      simp [on_response, hd, hl, hf]

/-- Witness for C2 (amended) at a concrete state: resolving id 0 with
truthy data pops the entry and completes the pending handle. -/
theorem C2_response_delivery_witness :
    (on_response (JSState.mk 1 [(0, 5)] [(5, .pending)] 6) 0
        (.pystr "v")).tasks = eraseK [(0, 5)] 0 ∧
    (on_response (JSState.mk 1 [(0, 5)] [(5, .pending)] 6) 0
        (.pystr "v")).futs = setK [(5, .pending)] 5 (.done (.pystr "v")) := by
  have h := (C2_response_delivery (JSState.mk 1 [(0, 5)] [(5, .pending)] 6) 0
    (.pystr "v")).2.2 (by decide) 5 (by decide)
  exact ⟨h.1, h.2.2.2.1 (by decide)⟩

/-- C3: a query issued while not connected returns a handle already
resolved with `None`, emits no command, creates no pending entry, and
leaves the request counter unchanged. -/
theorem C3_disconnected_query :
    ∀ (doc : Doc) (p : WElem) (st : JSState) (q : String),
      connected doc p = false →
      (js_query doc p st q).2.2 = [] ∧
      (js_query doc p st q).1.tasks = st.tasks ∧
      (js_query doc p st q).1.reqid = st.reqid ∧
      lookupK (js_query doc p st q).1.futs (js_query doc p st q).2.1 =
        some (FutState.done PyVal.pynone) := by
  intro doc p st q h
  have hc : ¬ connected doc p = true := by simp [h]
  refine ⟨?_, ?_, ?_, ?_⟩ <;> simp [js_query, hc, lookupK_setK_self]

/-- Witness for C3: disconnected query on a concrete state. -/
theorem C3_disconnected_query_witness :
    (js_query ⟨[]⟩ ⟨"div", "1", true⟩ initState "scrollX").2.2 = [] ∧
    (js_query ⟨[]⟩ ⟨"div", "1", true⟩ initState "scrollX").1.tasks = [] ∧
    lookupK (js_query ⟨[]⟩ ⟨"div", "1", true⟩ initState "scrollX").1.futs
        (js_query ⟨[]⟩ ⟨"div", "1", true⟩ initState "scrollX").2.1 =
      some (FutState.done PyVal.pynone) := by
  have h := C3_disconnected_query ⟨[]⟩ ⟨"div", "1", true⟩ initState "scrollX"
    (by decide)
  exact ⟨h.1, h.2.1, h.2.2.2⟩

/-- C4: the per-node counter starts at 0 with an empty table; request ids
allocated by connected queries are strictly increasing across any call
sequence; a connected query stores a fresh pending handle under the
allocated id (freshness under the state well-formedness invariant, which
`initState` satisfies and all operations preserve); resolving an id
completes exactly the matching handle and no other, and removes exactly
that entry. -/
theorem C4_request_ids :
    initState.reqid = 0 ∧ initState.tasks = [] ∧ goodSt initState ∧
    (∀ (p : WElem) (st : JSState) (ds : List Doc),
      (runQueries p st ds).2.Pairwise (· < ·)) ∧
    (∀ (doc : Doc) (p : WElem) (st : JSState) (q : String),
      connected doc p = true →
        (js_query doc p st q).1.reqid = st.reqid + 1 ∧
        lookupK (js_query doc p st q).1.tasks st.reqid = some st.nextFid ∧
        lookupK (js_query doc p st q).1.futs st.nextFid =
          some FutState.pending ∧
        (goodSt st → lookupK st.futs st.nextFid = none) ∧
        (goodSt st → goodSt (js_query doc p st q).1)) ∧
    (∀ (st : JSState) (reqid : Nat) (data : PyVal) (fid : Nat),
      truthy data = true → lookupK st.tasks reqid = some fid →
      lookupK st.futs fid = some FutState.pending →
        lookupK (on_response st reqid data).futs fid =
          some (FutState.done data) ∧
        (∀ g, g ≠ fid →
          lookupK (on_response st reqid data).futs g = lookupK st.futs g) ∧
        (∀ r, r ≠ reqid →
          lookupK (on_response st reqid data).tasks r = lookupK st.tasks r) ∧
        lookupK (on_response st reqid data).tasks reqid = none) := by
  refine ⟨rfl, rfl, goodSt_initState,
    fun p st ds => runQueries_pairwise p ds st, ?_, ?_⟩
  · intro doc p st q h
    refine ⟨?_, ?_, ?_, ?_, ?_⟩
    · simp [js_query, h]
    · simp [js_query, h, lookupK_setK_self]
    · simp [js_query, h, lookupK_setK_self]
    · intro hg
      exact lookupK_none_of_keys_lt st.futs st.nextFid hg.1
    · intro hg
      exact goodSt_js_query doc p st q hg
  · intro st reqid data fid hd hl hf
    refine ⟨?_, ?_, ?_, ?_⟩
    · simp [on_response, hd, hl, hf, lookupK_setK_self]
    · intro g hg
      simp only [on_response, hd, if_true, hl, hf]
      exact lookupK_setK_ne st.futs fid g (.done data) hg
    · intro r hr
      simp only [on_response, hd, if_true, hl, hf]
      exact lookupK_eraseK_ne st.tasks reqid r hr
    · simp only [on_response, hd, if_true, hl, hf]
      exact lookupK_eraseK_self st.tasks reqid

/-- Witness for C4 at concrete inputs: two connected queries from the
initial state allocate increasing ids, and a connected query from the
initial state stores the fresh handle under id 0. -/
theorem C4_request_ids_witness :
    (runQueries ⟨"div", "1", true⟩ initState [⟨[1]⟩, ⟨[1]⟩]).2.Pairwise
      (· < ·) ∧
    lookupK (js_query ⟨[1]⟩ ⟨"div", "1", true⟩ initState "q").1.tasks 0 =
      some 0 := by
  constructor
  · exact C4_request_ids.2.2.2.1 ⟨"div", "1", true⟩ initState [⟨[1]⟩, ⟨[1]⟩]
  · exact (C4_request_ids.2.2.2.2.1 ⟨[1]⟩ ⟨"div", "1", true⟩ initState "q"
      (by decide)).2.1

/-- C5: appendChild appends the child to the local child list in both the
connected and the disconnected case; when connected it emits exactly one
`insertAdjacentHTML('beforeend', html)` command, and the HTML it carries,
after stripping the identity attribute, equals the similarly stripped HTML
of the child as rendered inside the parent after the call (in fact the two
HTML strings are identical even before stripping). -/
theorem C5_appendChild :
    ∀ (doc : Doc) (p : WElem) (children : List WNode) (c : WNode),
      (appendChild doc p children c).1 = children ++ [c] ∧
      (connected doc p = true →
        (appendChild doc p children c).2 =
          [⟨"insertAdjacentHTML",
            [.pystr "beforeend", .pystr ⟨get_child_html p c⟩],
            "node", p.rimoId, p.tag⟩] ∧
        remove_rimo_id ⟨get_child_html p c⟩ =
          remove_rimo_id ⟨htmlChars (some p.tag) c⟩) := by
  intro doc p children c
  refine ⟨rfl, fun h => ⟨?_, ?_⟩⟩
  · have ho : p.owner = true := connected_owner doc p h
    simp [appendChild, js_exec, ws_send, h, ho]
  · rw [get_child_html_eq]

/-- Witness for C5: a connected parent receiving a text child emits exactly
the one insertion command. -/
theorem C5_appendChild_witness :
    (appendChild ⟨[1]⟩ ⟨"div", "8", true⟩ [] (.text "hi")).1 = [.text "hi"] ∧
    (appendChild ⟨[1]⟩ ⟨"div", "8", true⟩ [] (.text "hi")).2 =
      [⟨"insertAdjacentHTML",
        [.pystr "beforeend",
         .pystr ⟨get_child_html ⟨"div", "8", true⟩ (.text "hi")⟩],
        "node", "8", "div"⟩] := by
  have h := C5_appendChild ⟨[1]⟩ ⟨"div", "8", true⟩ [] (.text "hi")
  exact ⟨h.1, (h.2 (by decide)).1⟩

/-- C6: removing an argument that is not currently a child raises the
structural error (`ValueError`) to the caller, leaves the local child list
unchanged, and emits no outbound command even when connected (the web phase
checks membership before emitting). -/
theorem C6_removeChild_missing :
    ∀ (doc : Doc) (p : WElem) (children : List WNode) (c : WNode),
      containsNode children c = false →
      (removeChild doc p children c).children = children ∧
      (removeChild doc p children c).raised = true ∧
      (removeChild doc p children c).cmds = [] := by
  intro doc p children c h
  have hl := removeChildLocal_none children c h
  have hweb : _remove_child_web doc p children c = [] := by
    simp [_remove_child_web, h]
  refine ⟨?_, ?_, ?_⟩ <;>
    simp [removeChild, hl, hweb]

/-- Witness for C6: removing a node that is not a child of a connected
parent raises, changes nothing locally, and emits nothing. -/
theorem C6_removeChild_missing_witness :
    (removeChild ⟨[1]⟩ ⟨"div", "8", true⟩ [.text "a"] (.text "b")).children =
      [.text "a"] ∧
    (removeChild ⟨[1]⟩ ⟨"div", "8", true⟩ [.text "a"] (.text "b")).raised =
      true ∧
    (removeChild ⟨[1]⟩ ⟨"div", "8", true⟩ [.text "a"] (.text "b")).cmds =
      [] :=
  C6_removeChild_missing ⟨[1]⟩ ⟨"div", "8", true⟩ [.text "a"] (.text "b")
    (by decide)

/-- C7 counterexample: the claim says no command is emitted when a listener
for an already-registered event type is added while connected; but
`addEventListener` emits the `addEventListener` command on every call while
connected, with no first-registration check. -/
theorem C7_counterexample :
    lookupK ([("click", [0])] : LisMap) "click" = some [0] ∧
    (addEventListener ⟨[1]⟩ ⟨"div", "8", true⟩ [("click", [0])] "click"
        1).2 ≠ [] := by
  constructor
  · decide
  · intro h
    have : connected ⟨[1]⟩ ⟨"div", "8", true⟩ = true := by decide
    simp [addEventListener, js_exec, ws_send, this] at h

/-- C7 (amended): while connected, adding an event listener emits one
`addEventListener` command on every call (not only when the event type was
previously unregistered); removing a listener emits a `removeEventListener`
command exactly when no local listeners remain for that event type after
the removal. -/
theorem C7_listener_commands :
    ∀ (doc : Doc) (p : WElem) (m : LisMap) (ev : String) (lid : Nat),
      connected doc p = true →
      (addEventListener doc p m ev lid).2 =
        [⟨"addEventListener", [.pystr ev], "node", p.rimoId, p.tag⟩] ∧
      ((removeEventListener doc p m ev lid).2 ≠ [] ↔
        lookupK (removeListenerLocal m ev lid) ev = none) ∧
      (lookupK (removeListenerLocal m ev lid) ev = none →
        (removeEventListener doc p m ev lid).2 =
          [⟨"removeEventListener", [.pystr ev], "node", p.rimoId, p.tag⟩]) ∧
      (addEventListener doc p m ev lid).1 = addListenerLocal m ev lid ∧
      (removeEventListener doc p m ev lid).1 = removeListenerLocal m ev lid := by
  intro doc p m ev lid h
  have ho : p.owner = true := connected_owner doc p h
  refine ⟨?_, ?_, ?_, rfl, rfl⟩
  · simp [addEventListener, js_exec, ws_send, h, ho]
  · by_cases hl : lookupK (removeListenerLocal m ev lid) ev = none
    · simp [removeEventListener, js_exec, ws_send, h, ho, hl]
    · simp [removeEventListener, js_exec, ws_send, h, ho, hl]
  · intro hl
    simp [removeEventListener, js_exec, ws_send, h, ho, hl]

/-- Witness for C7 (amended): on a concrete connected node, adding a
listener for an already-registered type still emits the command, and
removing the last listener emits the removal command. -/
theorem C7_listener_commands_witness :
    (addEventListener ⟨[1]⟩ ⟨"div", "8", true⟩ [("click", [0])] "click"
        1).2 =
      [⟨"addEventListener", [.pystr "click"], "node", "8", "div"⟩] ∧
    (removeEventListener ⟨[1]⟩ ⟨"div", "8", true⟩ [("click", [0])] "click"
        0).2 =
      [⟨"removeEventListener", [.pystr "click"], "node", "8", "div"⟩] := by
  have h := C7_listener_commands ⟨[1]⟩ ⟨"div", "8", true⟩ [("click", [0])]
    "click" 1 (by decide)
  have h2 := C7_listener_commands ⟨[1]⟩ ⟨"div", "8", true⟩ [("click", [0])]
    "click" 0 (by decide)
  exact ⟨h.1, h2.2.2.1 (by decide)⟩

/-- C8: a `click()` on a node that is not connected emits no command and
dispatches, through the same local dispatch routine used by the inbound
router, an event whose type is `click` and whose `target` and
`currentTarget` identifiers equal the node's identity: the deliveries equal
those of a browser-originated click event message for this node routed
through `_handle_event`, and with a registered click listener list `ls`
every listener in `ls` receives exactly that event. -/
theorem C8_click_refinement :
    ∀ (doc : Doc) (p : WElem) (m : LisMap),
      connected doc p = false →
      (click doc p m).1 = [] ∧
      (click doc p m).2 = handle_event m "click" p.rimoId p.rimoId ∧
      (∀ x ∈ (click doc p m).2,
        x.2 = ⟨"click", p.rimoId, p.rimoId⟩) ∧
      (∀ ls, lookupK m "click" = some ls →
        (click doc p m).2 =
          ls.map (fun lid => (lid, ⟨"click", p.rimoId, p.rimoId⟩))) := by
  intro doc p m h
  have hc : ¬ connected doc p = true := by simp [h]
  refine ⟨?_, ?_, ?_, ?_⟩
  · simp [click, hc]
  · simp [click, hc, handle_event]
  · intro x hx
    replace hx : x ∈ dispatchEvent m (create_event "click" p.rimoId p.rimoId) := by
      have hcl : click doc p m =
          ([], dispatchEvent m (create_event "click" p.rimoId p.rimoId)) := by
        simp [click, hc]
      rw [hcl] at hx
      exact hx
    cases hl : lookupK m "click" with
    | none =>
      have hd := dispatchEvent_none m (create_event "click" p.rimoId p.rimoId) hl
      rw [hd] at hx
      exact absurd hx (List.not_mem_nil x)
    | some ls =>
      have hd := dispatchEvent_some m (create_event "click" p.rimoId p.rimoId) ls hl
      rw [hd] at hx
      simp only [List.mem_map] at hx
      obtain ⟨lid, _, heq⟩ := hx
      rw [← heq]
      rfl
  · intro ls hl
    have hd := dispatchEvent_some m (create_event "click" p.rimoId p.rimoId) ls hl
    have hcl : click doc p m =
        ([], dispatchEvent m (create_event "click" p.rimoId p.rimoId)) := by
      simp [click, hc]
    rw [hcl, hd]
    rfl

/-- Witness for C8: a disconnected node with one click listener delivers to
that listener the same event a routed browser click would deliver. -/
theorem C8_click_refinement_witness :
    (click ⟨[]⟩ ⟨"button", "9", true⟩ [("click", [3])]).1 = [] ∧
    (click ⟨[]⟩ ⟨"button", "9", true⟩ [("click", [3])]).2 =
      handle_event [("click", [3])] "click" "9" "9" ∧
    (click ⟨[]⟩ ⟨"button", "9", true⟩ [("click", [3])]).2 =
      [(3, ⟨"click", "9", "9"⟩)] := by
  have h := C8_click_refinement ⟨[]⟩ ⟨"button", "9", true⟩ [("click", [3])]
    (by decide)
  exact ⟨h.1, h.2.1, h.2.2.2 [3] (by decide)⟩

/-- C9 counterexample: the claim says the utility strips the identity
attribute for every node identity, caller-supplied or derived; but the
regex only matches digit identities, so for a node with the caller-supplied
identity `"x"` nothing is stripped and `html_noid` differs from the HTML
with the identity attribute removed. -/
theorem C9_counterexample :
    html_noid (.elem "a" "x" [] []) = WNode.html (.elem "a" "x" [] []) ∧
    html_noid (.elem "a" "x" [] []) ≠ WNode.htmlNoId (.elem "a" "x" [] []) := by
  constructor <;> decide

/-- C9 (amended): `remove_rimo_id` deletes every occurrence of the pattern
(space, `rimo_id="`, digits, quote), so `html_noid` equals the node's HTML
with the identity attributes removed for every safe node: identities
nonempty digit strings (as all derived and int-supplied identities are),
tags and rendered text quote-free, attribute names without quote, space or
underscore, attribute values quote-free, and no two adjacent text
children. -/
theorem C9_remove_rimo_id :
    ∀ n : WNode, safeNode none n = true →
      html_noid n = WNode.htmlNoId n := by
  intro n hs
  have h := strip_html none n [] hs (nodeRestOk_nil n)
  simp only [List.append_nil, stripChars_nil] at h
  show remove_rimo_id (WNode.html n) = WNode.htmlNoId n
  unfold remove_rimo_id WNode.html WNode.htmlNoId
  exact congrArg String.mk h

/-- Witness for C9 (amended): a concrete safe tree with attributes, nested
children and text; stripping its HTML yields the id-free serialization. -/
theorem C9_remove_rimo_id_witness :
    safeNode none
      (.elem "div" "10" [("class", "row x")]
        [.text "a<b", .elem "span" "11" [] [.text "t"]]) = true ∧
    html_noid
      (.elem "div" "10" [("class", "row x")]
        [.text "a<b", .elem "span" "11" [] [.text "t"]]) =
      WNode.htmlNoId
        (.elem "div" "10" [("class", "row x")]
          [.text "a<b", .elem "span" "11" [] [.text "t"]]) :=
  ⟨by decide,
   C9_remove_rimo_id _ (by decide)⟩

/-- C10: a node's identity is always stored as a string (decimal string of
the object id when absent, string form of a supplied int or str); the
registry is keyed by that string, so an integer key resolves to nothing in
a registry whose keys are all strings (as the constructor guarantees); and
registration overwrites an existing entry for the same identity (last
writer wins). -/
theorem C10_identity_registry :
    (∀ (reg : Registry) (objId : Nat),
      (constructElement reg objId none).1 = toString objId) ∧
    (∀ (reg : Registry) (objId n : Nat),
      (constructElement reg objId (some (.int n))).1 = toString n) ∧
    (∀ (reg : Registry) (objId : Nat) (s : String),
      (constructElement reg objId (some (.str s))).1 = s) ∧
    (∀ (reg : Registry) (objId : Nat) (rid : Option PyKey),
      strKeysOnly reg → strKeysOnly (constructElement reg objId rid).2) ∧
    (∀ (reg : Registry) (objId n : Nat), strKeysOnly reg →
      resolveElement (constructElement reg objId (some (.int n))).2
          (.int n) = none ∧
      resolveElement (constructElement reg objId (some (.int n))).2
          (.str (toString n)) = some objId) ∧
    (∀ (reg : Registry) (k : PyKey) (o1 o2 : Nat),
      resolveElement
          (constructElement (constructElement reg o1 (some k)).2 o2
            (some k)).2
          (.str (initRimoId o2 (some k))) = some o2) := by
  refine ⟨fun _ _ => rfl, fun _ _ _ => rfl, fun _ _ _ => rfl, ?_, ?_, ?_⟩
  · intro reg objId rid h
    exact strKeysOnly_register reg (initRimoId objId rid) objId h
  · intro reg objId n h
    constructor
    · exact resolveElement_int_none _ n
        (strKeysOnly_register reg (toString n) objId h)
    · exact lookupK_setK_self reg (.str (toString n)) objId
  · intro reg k o1 o2
    exact lookupK_setK_self (constructElement reg o1 (some k)).2
      (PyKey.str (initRimoId o2 (some k))) o2

/-- Witness for C10: registering id 5 (as int) stores the string `"5"`;
looking up the integer key finds nothing while the string key finds the
node; re-registering the same id overwrites. -/
theorem C10_identity_registry_witness :
    (constructElement [] 100 (some (.int 5))).1 = "5" ∧
    resolveElement (constructElement [] 100 (some (.int 5))).2 (.int 5) =
      none ∧
    resolveElement (constructElement [] 100 (some (.int 5))).2 (.str "5") =
      some 100 ∧
    resolveElement
        (constructElement (constructElement [] 100 (some (.int 5))).2 200
          (some (.int 5))).2
        (.str "5") = some 200 := by
  have h1 := C10_identity_registry.2.2.2.2.1 ([] : Registry) 100 5
    (by intro kv hkv; simp at hkv)
  refine ⟨rfl, h1.1, h1.2, ?_⟩
  exact C10_identity_registry.2.2.2.2.2 [] (.int 5) 100 200

end Wdom
